import Mathlib

/-!
Verification of the NativeQuantizer subsystem
(mmrazor/models/quantizers/native_quantizer.py).

The traced computation graph is embedded as an ordered list of nodes; each
node is a module call, a free-function call, a method call, a primitive
operator call, or a fake-quant node.  Adjacency in the list models the
"immediately adjacent on an edge" relation of the traced graph.  Exempt-list
entries carry the kind of call they are meant to match, mirroring the fact
that in the source a module class, a function object, a method-name string
and an operator name are pairwise non-equal Python values.

External collaborators (the torch fx fusion and observer-insertion passes,
the qconfig resolver, the backend registry) are out of scope for the source
file; they are either taken as abstract function arguments or modelled from
the spec, as marked on each definition.
-/

/-- Pattern entry of a redundant-fakequant exempt list, tagged with the call
kind it matches: a module type, a function object, a method name or a
primitive operator name.  Identifiers are abstracted to natural numbers. -/
inductive Target where
  | modT (t : Nat)
  | funcT (f : Nat)
  | methT (m : Nat)
  | opT (o : Nat)
  deriving DecidableEq

/-- Node of the traced graph: one call site or one fake-quant node. -/
inductive Node where
  | moduleCall (t : Nat)
  | functionCall (f : Nat)
  | methodCall (m : Nat)
  | opCall (o : Nat)
  | fakequant
  deriving DecidableEq

/-- True exactly on fake-quant nodes. -/
def isFQ : Node → Bool
  | .fakequant => true
  | _ => false

/-- Does this node match a module-call pattern list? -/
def matchModule (patterns : List Target) : Node → Bool
  | .moduleCall t => patterns.contains (.modT t)
  | _ => false

/-- Does this node match a function-call pattern list? -/
def matchFunction (patterns : List Target) : Node → Bool
  | .functionCall f => patterns.contains (.funcT f)
  | _ => false

/-- Does this node match a method-call pattern list? -/
def matchMethod (patterns : List Target) : Node → Bool
  | .methodCall m => patterns.contains (.methT m)
  | _ => false

/-- Does this node match an operator-call pattern list? -/
def matchOp (patterns : List Target) : Node → Bool
  | .opCall o => patterns.contains (.opT o)
  | _ => false

/-- Modelled from the spec: generic deletion pass removing a fake-quant node
found immediately before a call matching the predicate.  The concrete
deleters of mmrazor.models.task_modules.tracer.fx are not part of the source
file; the spec describes each pass as removing a fake-quant node immediately
adjacent, on the specified side, to a call matching an exempt entry. -/
def delFQBefore (p : Node → Bool) : List Node → List Node
  | [] => []
  | [a] => [a]
  | a :: b :: rest =>
    if isFQ a && p b then b :: delFQBefore p rest
    else a :: delFQBefore p (b :: rest)

/-- Modelled from the spec: generic deletion pass removing a fake-quant node
found immediately after a call matching the predicate. -/
def delFQAfter (p : Node → Bool) : List Node → List Node
  | [] => []
  | [a] => [a]
  | a :: b :: rest =>
    if p a && isFQ b then a :: delFQAfter p rest
    else a :: delFQAfter p (b :: rest)

/-- Modelled from the spec: delete fake-quant nodes before exempt module calls
(mmrazor.models.task_modules.tracer.fx.del_fakequant_before_module). -/
def del_fakequant_before_module (prepared : List Node) (module_patterns : List Target) : List Node :=
  delFQBefore (matchModule module_patterns) prepared

/-- Modelled from the spec: delete fake-quant nodes after exempt module calls. -/
def del_fakequant_after_module (prepared : List Node) (module_patterns : List Target) : List Node :=
  delFQAfter (matchModule module_patterns) prepared

/-- Modelled from the spec: delete fake-quant nodes before exempt function calls. -/
def del_fakequant_before_function (prepared : List Node) (function_patterns : List Target) : List Node :=
  delFQBefore (matchFunction function_patterns) prepared

/-- Modelled from the spec: delete fake-quant nodes after exempt function calls. -/
def del_fakequant_after_function (prepared : List Node) (function_patterns : List Target) : List Node :=
  delFQAfter (matchFunction function_patterns) prepared

/-- Modelled from the spec: delete fake-quant nodes before exempt method calls. -/
def del_fakequant_before_method (prepared : List Node) (method_patterns : List Target) : List Node :=
  delFQBefore (matchMethod method_patterns) prepared

/-- Modelled from the spec: delete fake-quant nodes after exempt method calls. -/
def del_fakequant_after_method (prepared : List Node) (method_patterns : List Target) : List Node :=
  delFQAfter (matchMethod method_patterns) prepared

/-- Modelled from the spec: delete fake-quant nodes before exempt operator calls. -/
def del_fakequant_before_op (prepared : List Node) (op_patterns : List Target) : List Node :=
  delFQBefore (matchOp op_patterns) prepared

/-- Modelled from the spec: delete fake-quant nodes after exempt operator calls. -/
def del_fakequant_after_op (prepared : List Node) (op_patterns : List Target) : List Node :=
  delFQAfter (matchOp op_patterns) prepared

/-- Quantization scheme record, as consumed from the external qconfig
resolver: only the per-channel flag is observed by the source file. -/
structure QScheme where
  is_per_channel : Bool
  deriving DecidableEq

/-- Modelled from the spec: the structured configuration produced by the
external QConfig resolver (mmrazor.structures.quantization.QConfigHander).
It exposes a weight scheme, an activation scheme, and a convert method
producing the backend-native qconfig object (abstracted to a number). -/
structure QConfigHander where
  w_qscheme : QScheme
  a_qscheme : QScheme
  converted : Nat
  deriving DecidableEq

/-- Modelled from the spec: the convert method of the resolver output. -/
def QConfigHander.convert (q : QConfigHander) : Nat := q.converted

/-- Modelled from the spec: the torch QConfigMapping, a global default plus
per-object-type overrides.  Module types are abstracted to numbers; a value
of none for a registered type means no observer attached. -/
structure QConfigMapping where
  global_qconfig : Option Nat
  object_type_qconfigs : List (Nat × Option Nat)
  deriving DecidableEq

/-- Modelled from the spec: an empty qconfig mapping. -/
def QConfigMapping.empty : QConfigMapping := ⟨none, []⟩

/-- Modelled from the spec: set the global default qconfig. -/
def QConfigMapping.set_global (m : QConfigMapping) (q : Nat) : QConfigMapping :=
  ⟨some q, m.object_type_qconfigs⟩

/-- Modelled from the spec: register a per-object-type qconfig.  Entries are
appended; lookup takes the last matching entry, so a later registration for
the same type overrides an earlier one, as in a Python dict. -/
def QConfigMapping.set_object_type (m : QConfigMapping) (t : Nat) (q : Option Nat) : QConfigMapping :=
  ⟨m.global_qconfig, m.object_type_qconfigs ++ [(t, q)]⟩

/-- Modelled from the spec: the qconfig governing a module type, which is its
last registered override if any, and the global default otherwise. -/
def QConfigMapping.qconfigFor (m : QConfigMapping) (t : Nat) : Option Nat :=
  match m.object_type_qconfigs.reverse.lookup t with
  | some v => v
  | none => m.global_qconfig

/-- The extra_redundant_fakequants construction argument: eight caller-supplied
extension lists, one per (call kind, side) category.  The source reads each
key with a get whose default is the empty tuple; the structure carries the
eight lists directly. -/
structure ExtraRedundantFakequants where
  extra_module_prev_wo_fakequant : List Target
  extra_module_next_wo_fakequant : List Target
  extra_function_prev_wo_fakequant : List Target
  extra_function_next_wo_fakequant : List Target
  extra_method_prev_wo_fakequant : List Target
  extra_method_next_wo_fakequant : List Target
  extra_op_prev_wo_fakequant : List Target
  extra_op_next_wo_fakequant : List Target
  deriving DecidableEq

/-- All eight extension lists empty: the default value of the argument. -/
def ExtraRedundantFakequants.empty : ExtraRedundantFakequants :=
  ⟨[], [], [], [], [], [], [], []⟩

/-- Errors surfaced by the quantizer: a failed construction-time assert, or
the not-implemented deployment entry point. -/
inductive MmrazorError where
  | assertionError
  | notImplementedError
  deriving DecidableEq

/-- State of a successfully constructed NativeQuantizer: the fields assigned
by its init.  The tracer (from the base class), the backend config registry
entry and the example inputs are abstract tokens, since the source only
forwards them to external torch functions. -/
structure NativeQuantizer where
  qconfig : QConfigHander
  qconfig_mapping : QConfigMapping
  no_observer_modules : Option (List Nat)
  backend_config : Nat
  example_inputs : Nat
  extra_redundant_fakequants : ExtraRedundantFakequants
  tracer : Nat
  deriving DecidableEq

/-- Value of the backend property: the string native. -/
def backend_val : String := "native"

/-- Value of the support_w_modes property. -/
def support_w_modes_val : List String := ["per_tensor", "per_channel"]

/-- Value of the support_a_modes property. -/
def support_a_modes_val : List String := ["per_tensor"]

/-- The backend property of NativeQuantizer. -/
def NativeQuantizer.backend (_ : NativeQuantizer) : String := backend_val

/-- The support_w_modes property of NativeQuantizer. -/
def NativeQuantizer.support_w_modes (_ : NativeQuantizer) : List String := support_w_modes_val

/-- The support_a_modes property of NativeQuantizer. -/
def NativeQuantizer.support_a_modes (_ : NativeQuantizer) : List String := support_a_modes_val

/-- Base exempt list module_prev_wo_fakequant: empty in this variant. -/
def NativeQuantizer.module_prev_wo_fakequant (_ : NativeQuantizer) : List Target := []

/-- Base exempt list module_next_wo_fakequant: empty in this variant. -/
def NativeQuantizer.module_next_wo_fakequant (_ : NativeQuantizer) : List Target := []

/-- Base exempt list function_prev_wo_fakequant: empty in this variant. -/
def NativeQuantizer.function_prev_wo_fakequant (_ : NativeQuantizer) : List Target := []

/-- Base exempt list function_next_wo_fakequant: empty in this variant. -/
def NativeQuantizer.function_next_wo_fakequant (_ : NativeQuantizer) : List Target := []

/-- Base exempt list method_prev_wo_fakequant: empty in this variant. -/
def NativeQuantizer.method_prev_wo_fakequant (_ : NativeQuantizer) : List Target := []

/-- Base exempt list method_next_wo_fakequant: empty in this variant. -/
def NativeQuantizer.method_next_wo_fakequant (_ : NativeQuantizer) : List Target := []

/-- Base exempt list op_prev_wo_fakequant: empty in this variant. -/
def NativeQuantizer.op_prev_wo_fakequant (_ : NativeQuantizer) : List Target := []

/-- Base exempt list op_next_wo_fakequant: empty in this variant. -/
def NativeQuantizer.op_next_wo_fakequant (_ : NativeQuantizer) : List Target := []

/-- Modelled from the spec: the external backend rule-table registry
(mmrazor.structures.quantization.BackendConfigs), keyed by backend name.
The rule table itself is abstract. -/
def BackendConfigsReg (_ : String) : Nat := 0

/-- Modelled from the spec: str2class of mmrazor.models.utils, resolving the
user-written module-type identifiers to module classes; identifiers are
already abstract here, so it is the identity on the list. -/
def str2class (mods : List Nat) : List Nat := mods

/-- Opaque token standing for the example inputs tensor created at
construction (a random tensor; its value is never inspected by the source). -/
def exampleInputsTok : Nat := 0

/-- Construction of NativeQuantizer, following its init line by line: resolve
the qconfig, derive the weight and activation modes, assert both against the
supported-mode properties, build the qconfig mapping from the global config,
register any no-observer module types with a none qconfig, look up the
backend config and store the extra redundant-fakequant lists.  A failed
assert aborts construction before the qconfig mapping is built. -/
def NativeQuantizer.init (global_qconfig : QConfigHander)
    (no_observer_modules : Option (List Nat)) (tracer : Nat)
    (extra_redundant_fakequants : ExtraRedundantFakequants) :
    Except MmrazorError NativeQuantizer :=
  let qconfig := global_qconfig
  let w_mode := if qconfig.w_qscheme.is_per_channel then "per_channel" else "per_tensor"
  let a_mode := if qconfig.a_qscheme.is_per_channel then "per_channel" else "per_tensor"
  if !(support_w_modes_val.contains w_mode) then .error .assertionError
  else if !(support_a_modes_val.contains a_mode) then .error .assertionError
  else
    let mapping := QConfigMapping.set_global QConfigMapping.empty qconfig.convert
    let truthy : Bool := match no_observer_modules with
      | some mods => !mods.isEmpty
      | none => false
    let no_obs := if truthy then some (str2class (no_observer_modules.getD []))
      else no_observer_modules
    let mapping := if truthy then
        (str2class (no_observer_modules.getD [])).foldl
          (fun m t => m.set_object_type t none) mapping
      else mapping
    .ok ⟨qconfig, mapping, no_obs, BackendConfigsReg backend_val,
         exampleInputsTok, extra_redundant_fakequants, tracer⟩

/-- The redundant-fakequant pruner, following the source line by line: eight
deletion passes, each receiving the corresponding base-list property
concatenated with the extra list read from extra_redundant_fakequants.  As
in the source, the function-category lists are handed to the method-call
deleters and the method-category lists to the function-call deleters. -/
def NativeQuantizer.del_redundant_fakequant (q : NativeQuantizer) (prepared : List Node) : List Node :=
  let e := q.extra_redundant_fakequants
  let prepared := del_fakequant_before_module prepared
    (q.module_prev_wo_fakequant ++ e.extra_module_prev_wo_fakequant)
  let prepared := del_fakequant_after_module prepared
    (q.module_next_wo_fakequant ++ e.extra_module_next_wo_fakequant)
  let prepared := del_fakequant_before_method prepared
    (q.function_prev_wo_fakequant ++ e.extra_function_prev_wo_fakequant)
  let prepared := del_fakequant_after_method prepared
    (q.function_next_wo_fakequant ++ e.extra_function_next_wo_fakequant)
  let prepared := del_fakequant_before_function prepared
    (q.method_prev_wo_fakequant ++ e.extra_method_prev_wo_fakequant)
  let prepared := del_fakequant_after_function prepared
    (q.method_next_wo_fakequant ++ e.extra_method_next_wo_fakequant)
  let prepared := del_fakequant_before_op prepared
    (q.op_prev_wo_fakequant ++ e.extra_op_prev_wo_fakequant)
  let prepared := del_fakequant_after_op prepared
    (q.op_next_wo_fakequant ++ e.extra_op_next_wo_fakequant)
  prepared

/-- The prepare method, following the source: fuse the graph with the
training-mode flag set to true, hand the fused graph to the external
observer-insertion pass together with the qconfig mapping, the tracer scope
metadata, the example inputs and the backend config (again with the
training-mode flag true), then delegate to the redundant-fakequant pruner.
The two torch passes are external and taken as function arguments; the model
argument is accepted and, as in the source, never used. -/
def NativeQuantizer.prepare (q : NativeQuantizer)
    (fuseFx : List Node → Bool → Nat → List Node)
    (prepareFx : List Node → QConfigMapping → Bool → Nat → Nat → Nat → List Node)
    (_model : Nat) (graph_module : List Node) : List Node :=
  let graph_module := fuseFx graph_module true q.backend_config
  let prepared := prepareFx graph_module q.qconfig_mapping true q.tracer
    q.example_inputs q.backend_config
  let prepared := q.del_redundant_fakequant prepared
  prepared

/-- The prepare_for_mmdeploy method: raises NotImplementedError
unconditionally. -/
def NativeQuantizer.prepare_for_mmdeploy (_ : NativeQuantizer) (_model : Nat)
    (_dummy_input : List Int) (_checkpoint : Option String) :
    Except MmrazorError Unit :=
  .error .notImplementedError

/-- Modelled from the spec: the external observer-insertion engine attaches
one observer/fake-quant node to the output of each call site, per the
qconfig mapping; a module type registered with a none qconfig receives no
observer, and every other call falls back to the global qconfig. -/
def observeNode (m : QConfigMapping) (n : Node) : List Node :=
  match n with
  | .moduleCall t =>
    match m.qconfigFor t with
    | some _ => [.moduleCall t, .fakequant]
    | none => [.moduleCall t]
  | other =>
    match m.global_qconfig with
    | some _ => [other, .fakequant]
    | none => [other]

/-- Modelled from the spec: observer insertion over the whole graph, node by
node. -/
def insert_observers (m : QConfigMapping) : List Node → List Node
  | [] => []
  | n :: rest => observeNode m n ++ insert_observers m rest

/-- Side of a deletion pass: before or after the matching call. -/
inductive Side where
  | before
  | after
  deriving DecidableEq

/-- One deletion pass, given by its side and its matching predicate. -/
def applyPass (s : Side) (p : Node → Bool) (l : List Node) : List Node :=
  match s with
  | .before => delFQBefore p l
  | .after => delFQAfter p l

/-- Sequential application of a list of deletion passes. -/
def applyPasses : List (Side × (Node → Bool)) → List Node → List Node
  | [], l => l
  | pr :: ps, l => applyPasses ps (applyPass pr.1 pr.2 l)

/-- The eight passes of del_redundant_fakequant, in source order. -/
def NativeQuantizer.passList (q : NativeQuantizer) : List (Side × (Node → Bool)) :=
  let e := q.extra_redundant_fakequants
  [(.before, matchModule (q.module_prev_wo_fakequant ++ e.extra_module_prev_wo_fakequant)),
   (.after, matchModule (q.module_next_wo_fakequant ++ e.extra_module_next_wo_fakequant)),
   (.before, matchMethod (q.function_prev_wo_fakequant ++ e.extra_function_prev_wo_fakequant)),
   (.after, matchMethod (q.function_next_wo_fakequant ++ e.extra_function_next_wo_fakequant)),
   (.before, matchFunction (q.method_prev_wo_fakequant ++ e.extra_method_prev_wo_fakequant)),
   (.after, matchFunction (q.method_next_wo_fakequant ++ e.extra_method_next_wo_fakequant)),
   (.before, matchOp (q.op_prev_wo_fakequant ++ e.extra_op_prev_wo_fakequant)),
   (.after, matchOp (q.op_next_wo_fakequant ++ e.extra_op_next_wo_fakequant))]

/-- No two consecutive fake-quant nodes: the at-most-one-fake-quant-per-edge
invariant that prepare guarantees for the graphs it hands to the pruner. -/
def noStackedFQ : List Node → Bool
  | [] => true
  | [_] => true
  | a :: b :: rest => !(isFQ a && isFQ b) && noStackedFQ (b :: rest)

/-- No fake-quant node remains immediately before a node matched by p. -/
def cleanBefore (p : Node → Bool) : List Node → Bool
  | [] => true
  | [_] => true
  | a :: b :: rest => !(isFQ a && p b) && cleanBefore p (b :: rest)

/-- No fake-quant node remains immediately after a node matched by p. -/
def cleanAfter (p : Node → Bool) : List Node → Bool
  | [] => true
  | [_] => true
  | a :: b :: rest => !(p a && isFQ b) && cleanAfter p (b :: rest)

/-- The residual pattern a pass can still delete, by side. -/
def cleanPass (pr : Side × (Node → Bool)) (l : List Node) : Bool :=
  match pr.1 with
  | .before => cleanBefore pr.2 l
  | .after => cleanAfter pr.2 l

/-- The fifteen members of SUPPORT_QAT_MODULES (torch at least 1.13). -/
inductive QatType where
  | ConvBn1d
  | ConvBn2d
  | ConvBn3d
  | ConvBnReLU1d
  | ConvBnReLU2d
  | ConvBnReLU3d
  | ConvReLU1d
  | ConvReLU2d
  | ConvReLU3d
  | LinearBn1d
  | LinearReLU
  | Conv1d
  | Conv2d
  | Conv3d
  | Linear
  deriving DecidableEq

/-- SUPPORT_QAT_MODULES as a list, in source order. -/
def SUPPORT_QAT_MODULES : List QatType :=
  [.ConvBn1d, .ConvBn2d, .ConvBn3d, .ConvBnReLU1d, .ConvBnReLU2d,
   .ConvBnReLU3d, .ConvReLU1d, .ConvReLU2d, .ConvReLU3d, .LinearBn1d,
   .LinearReLU, .Conv1d, .Conv2d, .Conv3d, .Linear]

/-- MERGE_BN_MAPPINGS of the source: the seven normalization-fused QAT types
and their normalization-free quantized counterparts. -/
def MERGE_BN_MAPPINGS : QatType → Option QatType
  | .ConvBn1d => some .Conv1d
  | .ConvBn2d => some .Conv2d
  | .ConvBn3d => some .Conv3d
  | .ConvBnReLU1d => some .ConvReLU1d
  | .ConvBnReLU2d => some .ConvReLU2d
  | .ConvBnReLU3d => some .ConvReLU3d
  | .LinearBn1d => some .Linear
  | _ => none

/-- Whether a QAT module type carries a separate batchnorm submodule (the
types whose torch classes hold a bn attribute). -/
def has_bn : QatType → Bool
  | .ConvBn1d => true
  | .ConvBn2d => true
  | .ConvBn3d => true
  | .ConvBnReLU1d => true
  | .ConvBnReLU2d => true
  | .ConvBnReLU3d => true
  | .LinearBn1d => true
  | _ => false

mutual
/-- Module tree handed to post_process_weight_fakequant.  A leaf is either a
supported fused-QAT module carrying a stored weight (abstracted to one
integer), the floating-point module produced from a QAT module of a given
source type by to_float, or a plain non-QAT leaf; containers hold named
children.  The fake-quant enabled flag flipped by enable_fake_quant is not
represented: the weight fake-quant function passed to the traversal stands
for the already-enabled fake-quant. -/
inductive ModuleT where
  | qat (t : QatType) (weight : Int)
  | floatOf (src : QatType) (weight : Int)
  | plainLeaf (cls : Nat)
  | container (children : Children)
/-- Ordered named children of a container module. -/
inductive Children where
  | nil
  | cons (name : String) (child : ModuleT) (rest : Children)
end

/-- Processing of one child whose type is in SUPPORT_QAT_MODULES, following
the traverse body of post_process_weight_fakequant.  The weight fake-quant
(fq) and the weight transformation performed by the external to_float
batchnorm folding (fold) are taken as function arguments.  The returned list
records, in order, every tensor passed to the weight fake-quant: first the
stored weight, overwritten in place with the result; then, only when
keep_fake_quant is true, the reconstructed module weight, whose fake-quant
result the source discards.  The qconfig attribute attached to the folded
submodules on the keep_fake_quant path is not represented, since no later
step of the source reads it. -/
def processQatChild (fq : Int → Int) (fold : QatType → Int → Int)
    (keep_fake_quant : Bool) (t : QatType) (w : Int) : ModuleT × List Int :=
  let w1 := fq w
  let floatW := fold t w1
  if keep_fake_quant then
    let cls := match MERGE_BN_MAPPINGS t with
      | some c => c
      | none => t
    (ModuleT.qat cls floatW, [w, floatW])
  else
    (ModuleT.floatOf t floatW, [w])

mutual
/-- The recursive traverse of post_process_weight_fakequant: children whose
type is in SUPPORT_QAT_MODULES are replaced in their parent, all other
children are traversed recursively.  A QAT or float module reached otherwise
than as a child has no named children and is left unchanged.  Returns the
rewritten tree together with the concatenated fake-quant invocation
record. -/
def traverseModule (fq : Int → Int) (fold : QatType → Int → Int)
    (keep_fake_quant : Bool) : ModuleT → ModuleT × List Int
  | .container cs =>
    let r := traverseChildren fq fold keep_fake_quant cs
    (.container r.1, r.2)
  | m => (m, [])
/-- Child-list part of the traverse. -/
def traverseChildren (fq : Int → Int) (fold : QatType → Int → Int)
    (keep_fake_quant : Bool) : Children → Children × List Int
  | .nil => (.nil, [])
  | .cons n c rest =>
    let hd := match c with
      | .qat t w => processQatChild fq fold keep_fake_quant t w
      | other => traverseModule fq fold keep_fake_quant other
    let tl := traverseChildren fq fold keep_fake_quant rest
    (.cons n hd.1 tl.1, hd.2 ++ tl.2)
end

/-- The post_process_weight_fakequant method: globally re-enable fake
quantization (represented by fq itself) and run the traverse over the
observed module tree. -/
def NativeQuantizer.post_process_weight_fakequant (_ : NativeQuantizer)
    (fq : Int → Int) (fold : QatType → Int → Int) (observed_module : ModuleT)
    (keep_fake_quant : Bool) : ModuleT × List Int :=
  traverseModule fq fold keep_fake_quant observed_module

/-- Whether an Except value is a success. -/
def isOkE {ε α : Type} : Except ε α → Bool
  | .ok _ => true
  | .error _ => false

/-- Concrete extension lists: one extra function-before exempt entry. -/
def extraFuncPrev : ExtraRedundantFakequants :=
  ⟨[], [], [Target.funcT 0], [], [], [], [], []⟩

/-- Concrete extension lists: one extra module-before exempt entry. -/
def extraModPrev : ExtraRedundantFakequants :=
  ⟨[Target.modT 0], [], [], [], [], [], [], []⟩

/-- Concrete quantizer carrying the extra function-before exempt entry. -/
def nqFuncPrev : NativeQuantizer :=
  ⟨⟨⟨false⟩, ⟨false⟩, 0⟩, ⟨some 0, []⟩, none, 0, 0, extraFuncPrev, 0⟩

/-- Concrete quantizer carrying the extra module-before exempt entry. -/
def nqModPrev : NativeQuantizer :=
  ⟨⟨⟨false⟩, ⟨false⟩, 0⟩, ⟨some 0, []⟩, none, 0, 0, extraModPrev, 0⟩

/-- Concrete graph with one deletable fake-quant before a module call. -/
def gWit : List Node :=
  [.fakequant, .moduleCall 0, .fakequant, .methodCall 1]

/-- Concrete qconfig whose activation scheme is per channel. -/
def cfgPerChannelAct : QConfigHander := ⟨⟨false⟩, ⟨true⟩, 3⟩

/-- Concrete supported qconfig: weight per channel, activation per tensor. -/
def cfgSupported : QConfigHander := ⟨⟨true⟩, ⟨false⟩, 5⟩

/-- The quantizer state produced by a successful construction from
cfgSupported with no-observer module type 7. -/
def stWit : NativeQuantizer :=
  ⟨cfgSupported, ⟨some 5, [(7, none)]⟩, some [7], 0, 0,
   ExtraRedundantFakequants.empty, 4⟩

/-- Concrete weight fake-quant function used in witnesses. -/
def fqDemo : Int → Int := fun w => w + 1

/-- Concrete batchnorm-folding weight transformation used in witnesses. -/
def foldDemo : QatType → Int → Int := fun _ w => 2 * w

theorem noStackedFQ_tail {a : Node} {l : List Node}
    (h : noStackedFQ (a :: l) = true) : noStackedFQ l = true := by
  cases l with
  | nil => rfl
  | cons b rest =>
    simp only [noStackedFQ, Bool.and_eq_true] at h
    exact h.2

theorem noStackedFQ_head {a b : Node} {rest : List Node}
    (h : noStackedFQ (a :: b :: rest) = true) : (isFQ a && isFQ b) = false := by
  simp only [noStackedFQ, Bool.and_eq_true, Bool.not_eq_true'] at h
  exact h.1

theorem noStackedFQ_cons {a : Node} {l : List Node}
    (h1 : ∀ b, l.head? = some b → (isFQ a && isFQ b) = false)
    (h2 : noStackedFQ l = true) : noStackedFQ (a :: l) = true := by
  cases l with
  | nil => rfl
  | cons b rest =>
    simp only [noStackedFQ, Bool.and_eq_true, Bool.not_eq_true']
    exact ⟨h1 b rfl, h2⟩

theorem cleanBefore_tail {p : Node → Bool} {a : Node} {l : List Node}
    (h : cleanBefore p (a :: l) = true) : cleanBefore p l = true := by
  cases l with
  | nil => rfl
  | cons b rest =>
    simp only [cleanBefore, Bool.and_eq_true] at h
    exact h.2

theorem cleanBefore_head {p : Node → Bool} {a b : Node} {rest : List Node}
    (h : cleanBefore p (a :: b :: rest) = true) : (isFQ a && p b) = false := by
  simp only [cleanBefore, Bool.and_eq_true, Bool.not_eq_true'] at h
  exact h.1

theorem cleanBefore_cons {p : Node → Bool} {a : Node} {l : List Node}
    (h1 : ∀ b, l.head? = some b → (isFQ a && p b) = false)
    (h2 : cleanBefore p l = true) : cleanBefore p (a :: l) = true := by
  cases l with
  | nil => rfl
  | cons b rest =>
    simp only [cleanBefore, Bool.and_eq_true, Bool.not_eq_true']
    exact ⟨h1 b rfl, h2⟩

theorem cleanAfter_tail {p : Node → Bool} {a : Node} {l : List Node}
    (h : cleanAfter p (a :: l) = true) : cleanAfter p l = true := by
  cases l with
  | nil => rfl
  | cons b rest =>
    simp only [cleanAfter, Bool.and_eq_true] at h
    exact h.2

theorem cleanAfter_head {p : Node → Bool} {a b : Node} {rest : List Node}
    (h : cleanAfter p (a :: b :: rest) = true) : (p a && isFQ b) = false := by
  simp only [cleanAfter, Bool.and_eq_true, Bool.not_eq_true'] at h
  exact h.1

theorem cleanAfter_cons {p : Node → Bool} {a : Node} {l : List Node}
    (h1 : ∀ b, l.head? = some b → (p a && isFQ b) = false)
    (h2 : cleanAfter p l = true) : cleanAfter p (a :: l) = true := by
  cases l with
  | nil => rfl
  | cons b rest =>
    simp only [cleanAfter, Bool.and_eq_true, Bool.not_eq_true']
    exact ⟨h1 b rfl, h2⟩

theorem not_isFQ_of_p {p : Node → Bool} {b : Node}
    (hp : p Node.fakequant = false) (hb : p b = true) : isFQ b = false := by
  cases b with
  | fakequant => rw [hp] at hb; exact absurd hb (by simp)
  | moduleCall t => rfl
  | functionCall f => rfl
  | methodCall m => rfl
  | opCall o => rfl

theorem delFQAfter_head (p : Node → Bool) :
    ∀ l : List Node, (delFQAfter p l).head? = l.head?
  | [] => rfl
  | [a] => rfl
  | a :: b :: rest => by
    simp only [delFQAfter]
    split <;> rfl

theorem delFQBefore_head_of_not_fq (p : Node → Bool) {a : Node} (l : List Node)
    (ha : isFQ a = false) : (delFQBefore p (a :: l)).head? = some a := by
  cases l with
  | nil => rfl
  | cons b rest =>
    simp only [delFQBefore, ha, Bool.false_and, Bool.false_eq_true, if_false]
    rfl

theorem delFQBefore_head_cases (p : Node → Bool) (hp : p Node.fakequant = false) :
    ∀ l : List Node, (delFQBefore p l).head? = l.head? ∨
      ∃ y, (delFQBefore p l).head? = some y ∧ isFQ y = false
  | [] => Or.inl rfl
  | [a] => Or.inl rfl
  | a :: b :: rest => by
    by_cases hc : (isFQ a && p b) = true
    · right
      refine ⟨b, ?_, ?_⟩
      · simp only [delFQBefore, hc, if_true]
        rfl
      · exact not_isFQ_of_p hp (Bool.and_elim_right hc)
    · left
      simp only [delFQBefore, hc, if_false]
      rfl

theorem bool_false_of_not_true {b : Bool} (h : ¬ b = true) : b = false := by
  cases b
  · rfl
  · exact absurd rfl h

theorem delFQBefore_of_clean (p : Node → Bool) :
    ∀ l : List Node, cleanBefore p l = true → delFQBefore p l = l
  | [] => fun _ => rfl
  | [a] => fun _ => rfl
  | a :: b :: rest => fun h => by
    have h1 := cleanBefore_head h
    simp only [delFQBefore, h1, Bool.false_eq_true, if_false]
    rw [delFQBefore_of_clean p (b :: rest) (cleanBefore_tail h)]

theorem delFQAfter_of_clean (p : Node → Bool) :
    ∀ l : List Node, cleanAfter p l = true → delFQAfter p l = l
  | [] => fun _ => rfl
  | [a] => fun _ => rfl
  | a :: b :: rest => fun h => by
    have h1 := cleanAfter_head h
    simp only [delFQAfter, h1, Bool.false_eq_true, if_false]
    rw [delFQAfter_of_clean p (b :: rest) (cleanAfter_tail h)]

theorem cleanBefore_delFQBefore (p : Node → Bool) (hp : p Node.fakequant = false) :
    ∀ l : List Node, noStackedFQ l = true → cleanBefore p (delFQBefore p l) = true
  | [] => fun _ => rfl
  | [a] => fun _ => rfl
  | a :: b :: rest => fun h => by
    by_cases hc : (isFQ a && p b) = true
    · simp only [delFQBefore, hc, if_true]
      refine cleanBefore_cons ?_ ?_
      · intro y _
        rw [not_isFQ_of_p hp (Bool.and_elim_right hc), Bool.false_and]
      · exact cleanBefore_delFQBefore p hp rest
          (noStackedFQ_tail (noStackedFQ_tail h))
    · simp only [delFQBefore, hc, if_false]
      refine cleanBefore_cons ?_ ?_
      · intro y hy
        by_cases ha : isFQ a = true
        · have hpb : p b = false := by
            cases hpb : p b
            · rfl
            · exact absurd (by simp [ha, hpb]) hc
          have hb : isFQ b = false := by
            have hh := noStackedFQ_head h
            rwa [ha, Bool.true_and] at hh
          rw [delFQBefore_head_of_not_fq p rest hb] at hy
          injection hy with hy
          subst hy
          rw [ha, Bool.true_and]
          exact hpb
        · rw [bool_false_of_not_true ha, Bool.false_and]
      · exact cleanBefore_delFQBefore p hp (b :: rest) (noStackedFQ_tail h)

theorem cleanAfter_delFQAfter (p : Node → Bool) (hp : p Node.fakequant = false) :
    ∀ l : List Node, noStackedFQ l = true → cleanAfter p (delFQAfter p l) = true
  | [] => fun _ => rfl
  | [a] => fun _ => rfl
  | a :: b :: rest => fun h => by
    by_cases hc : (p a && isFQ b) = true
    · simp only [delFQAfter, hc, if_true]
      refine cleanAfter_cons ?_ ?_
      · intro y hy
        rw [delFQAfter_head p rest] at hy
        cases rest with
        | nil => exact absurd hy (by simp)
        | cons c rest2 =>
          rw [List.head?_cons] at hy
          injection hy with hy
          subst hy
          have hb : isFQ b = true := Bool.and_elim_right hc
          have hh := noStackedFQ_head (noStackedFQ_tail h)
          rw [hb, Bool.true_and] at hh
          rw [hh, Bool.and_false]
      · exact cleanAfter_delFQAfter p hp rest
          (noStackedFQ_tail (noStackedFQ_tail h))
    · simp only [delFQAfter, hc, if_false]
      refine cleanAfter_cons ?_ ?_
      · intro y hy
        rw [delFQAfter_head p (b :: rest), List.head?_cons] at hy
        injection hy with hy
        subst hy
        exact bool_false_of_not_true hc
      · exact cleanAfter_delFQAfter p hp (b :: rest) (noStackedFQ_tail h)

theorem noStackedFQ_delFQBefore (p : Node → Bool) (hp : p Node.fakequant = false) :
    ∀ l : List Node, noStackedFQ l = true → noStackedFQ (delFQBefore p l) = true
  | [] => fun _ => rfl
  | [a] => fun _ => rfl
  | a :: b :: rest => fun h => by
    by_cases hc : (isFQ a && p b) = true
    · simp only [delFQBefore, hc, if_true]
      refine noStackedFQ_cons ?_ ?_
      · intro y _
        rw [not_isFQ_of_p hp (Bool.and_elim_right hc), Bool.false_and]
      · exact noStackedFQ_delFQBefore p hp rest
          (noStackedFQ_tail (noStackedFQ_tail h))
    · simp only [delFQBefore, hc, if_false]
      refine noStackedFQ_cons ?_ ?_
      · intro y hy
        by_cases ha : isFQ a = true
        · have hb : isFQ b = false := by
            have hh := noStackedFQ_head h
            rwa [ha, Bool.true_and] at hh
          rw [delFQBefore_head_of_not_fq p rest hb] at hy
          injection hy with hy
          subst hy
          rw [hb, Bool.and_false]
        · rw [bool_false_of_not_true ha, Bool.false_and]
      · exact noStackedFQ_delFQBefore p hp (b :: rest) (noStackedFQ_tail h)

theorem noStackedFQ_delFQAfter (p : Node → Bool) (hp : p Node.fakequant = false) :
    ∀ l : List Node, noStackedFQ l = true → noStackedFQ (delFQAfter p l) = true
  | [] => fun _ => rfl
  | [a] => fun _ => rfl
  | a :: b :: rest => fun h => by
    by_cases hc : (p a && isFQ b) = true
    · simp only [delFQAfter, hc, if_true]
      refine noStackedFQ_cons ?_ ?_
      · intro y _
        rw [not_isFQ_of_p hp (Bool.and_elim_left hc), Bool.false_and]
      · exact noStackedFQ_delFQAfter p hp rest
          (noStackedFQ_tail (noStackedFQ_tail h))
    · simp only [delFQAfter, hc, if_false]
      refine noStackedFQ_cons ?_ ?_
      · intro y hy
        rw [delFQAfter_head p (b :: rest), List.head?_cons] at hy
        injection hy with hy
        subst hy
        exact noStackedFQ_head h
      · exact noStackedFQ_delFQAfter p hp (b :: rest) (noStackedFQ_tail h)

theorem cleanBefore_delFQBefore_other (q p : Node → Bool) (hp : p Node.fakequant = false) :
    ∀ l : List Node, noStackedFQ l = true → cleanBefore q l = true →
      cleanBefore q (delFQBefore p l) = true
  | [] => fun _ _ => rfl
  | [a] => fun _ _ => rfl
  | a :: b :: rest => fun h hcl => by
    by_cases hc : (isFQ a && p b) = true
    · simp only [delFQBefore, hc, if_true]
      refine cleanBefore_cons ?_ ?_
      · intro y _
        rw [not_isFQ_of_p hp (Bool.and_elim_right hc), Bool.false_and]
      · exact cleanBefore_delFQBefore_other q p hp rest
          (noStackedFQ_tail (noStackedFQ_tail h))
          (cleanBefore_tail (cleanBefore_tail hcl))
    · simp only [delFQBefore, hc, if_false]
      refine cleanBefore_cons ?_ ?_
      · intro y hy
        by_cases ha : isFQ a = true
        · have hb : isFQ b = false := by
            have hh := noStackedFQ_head h
            rwa [ha, Bool.true_and] at hh
          rw [delFQBefore_head_of_not_fq p rest hb] at hy
          injection hy with hy
          subst hy
          exact cleanBefore_head hcl
        · rw [bool_false_of_not_true ha, Bool.false_and]
      · exact cleanBefore_delFQBefore_other q p hp (b :: rest)
          (noStackedFQ_tail h) (cleanBefore_tail hcl)

theorem cleanBefore_delFQAfter_other (q p : Node → Bool) (hp : p Node.fakequant = false) :
    ∀ l : List Node, noStackedFQ l = true → cleanBefore q l = true →
      cleanBefore q (delFQAfter p l) = true
  | [] => fun _ _ => rfl
  | [a] => fun _ _ => rfl
  | a :: b :: rest => fun h hcl => by
    by_cases hc : (p a && isFQ b) = true
    · simp only [delFQAfter, hc, if_true]
      refine cleanBefore_cons ?_ ?_
      · intro y _
        rw [not_isFQ_of_p hp (Bool.and_elim_left hc), Bool.false_and]
      · exact cleanBefore_delFQAfter_other q p hp rest
          (noStackedFQ_tail (noStackedFQ_tail h))
          (cleanBefore_tail (cleanBefore_tail hcl))
    · simp only [delFQAfter, hc, if_false]
      refine cleanBefore_cons ?_ ?_
      · intro y hy
        rw [delFQAfter_head p (b :: rest), List.head?_cons] at hy
        injection hy with hy
        subst hy
        exact cleanBefore_head hcl
      · exact cleanBefore_delFQAfter_other q p hp (b :: rest)
          (noStackedFQ_tail h) (cleanBefore_tail hcl)

theorem cleanAfter_delFQBefore_other (q p : Node → Bool) (hp : p Node.fakequant = false) :
    ∀ l : List Node, noStackedFQ l = true → cleanAfter q l = true →
      cleanAfter q (delFQBefore p l) = true
  | [] => fun _ _ => rfl
  | [a] => fun _ _ => rfl
  | a :: b :: rest => fun h hcl => by
    by_cases hc : (isFQ a && p b) = true
    · simp only [delFQBefore, hc, if_true]
      refine cleanAfter_cons ?_ ?_
      · intro y hy
        rcases delFQBefore_head_cases p hp rest with hcase | ⟨z, hz, hzfq⟩
        · rw [hcase] at hy
          cases rest with
          | nil => exact absurd hy (by simp)
          | cons c rest2 =>
            rw [List.head?_cons] at hy
            injection hy with hy
            subst hy
            exact cleanAfter_head (cleanAfter_tail hcl)
        · rw [hz] at hy
          injection hy with hy
          subst hy
          rw [hzfq, Bool.and_false]
      · exact cleanAfter_delFQBefore_other q p hp rest
          (noStackedFQ_tail (noStackedFQ_tail h))
          (cleanAfter_tail (cleanAfter_tail hcl))
    · simp only [delFQBefore, hc, if_false]
      refine cleanAfter_cons ?_ ?_
      · intro y hy
        rcases delFQBefore_head_cases p hp (b :: rest) with hcase | ⟨z, hz, hzfq⟩
        · rw [hcase, List.head?_cons] at hy
          injection hy with hy
          subst hy
          exact cleanAfter_head hcl
        · rw [hz] at hy
          injection hy with hy
          subst hy
          rw [hzfq, Bool.and_false]
      · exact cleanAfter_delFQBefore_other q p hp (b :: rest)
          (noStackedFQ_tail h) (cleanAfter_tail hcl)

theorem cleanAfter_delFQAfter_other (q p : Node → Bool) (hp : p Node.fakequant = false) :
    ∀ l : List Node, noStackedFQ l = true → cleanAfter q l = true →
      cleanAfter q (delFQAfter p l) = true
  | [] => fun _ _ => rfl
  | [a] => fun _ _ => rfl
  | a :: b :: rest => fun h hcl => by
    by_cases hc : (p a && isFQ b) = true
    · simp only [delFQAfter, hc, if_true]
      refine cleanAfter_cons ?_ ?_
      · intro y hy
        rw [delFQAfter_head p rest] at hy
        cases rest with
        | nil => exact absurd hy (by simp)
        | cons c rest2 =>
          rw [List.head?_cons] at hy
          injection hy with hy
          subst hy
          have hb : isFQ b = true := Bool.and_elim_right hc
          have hh := noStackedFQ_head (noStackedFQ_tail h)
          rw [hb, Bool.true_and] at hh
          rw [hh, Bool.and_false]
      · exact cleanAfter_delFQAfter_other q p hp rest
          (noStackedFQ_tail (noStackedFQ_tail h))
          (cleanAfter_tail (cleanAfter_tail hcl))
    · simp only [delFQAfter, hc, if_false]
      refine cleanAfter_cons ?_ ?_
      · intro y hy
        rw [delFQAfter_head p (b :: rest), List.head?_cons] at hy
        injection hy with hy
        subst hy
        exact cleanAfter_head hcl
      · exact cleanAfter_delFQAfter_other q p hp (b :: rest)
          (noStackedFQ_tail h) (cleanAfter_tail hcl)

theorem applyPass_noStacked (pr : Side × (Node → Bool))
    (hp : pr.2 Node.fakequant = false) (l : List Node)
    (h : noStackedFQ l = true) :
    noStackedFQ (applyPass pr.1 pr.2 l) = true := by
  rcases pr with ⟨s, p⟩
  cases s
  · exact noStackedFQ_delFQBefore p hp l h
  · exact noStackedFQ_delFQAfter p hp l h

theorem applyPass_establishes (pr : Side × (Node → Bool))
    (hp : pr.2 Node.fakequant = false) (l : List Node)
    (h : noStackedFQ l = true) :
    cleanPass pr (applyPass pr.1 pr.2 l) = true := by
  rcases pr with ⟨s, p⟩
  cases s
  · exact cleanBefore_delFQBefore p hp l h
  · exact cleanAfter_delFQAfter p hp l h

theorem applyPass_preserves (pr pr2 : Side × (Node → Bool))
    (hp : pr2.2 Node.fakequant = false) (l : List Node)
    (h : noStackedFQ l = true) (hcl : cleanPass pr l = true) :
    cleanPass pr (applyPass pr2.1 pr2.2 l) = true := by
  rcases pr with ⟨s, q⟩
  rcases pr2 with ⟨s2, p⟩
  cases s <;> cases s2
  · exact cleanBefore_delFQBefore_other q p hp l h hcl
  · exact cleanBefore_delFQAfter_other q p hp l h hcl
  · exact cleanAfter_delFQBefore_other q p hp l h hcl
  · exact cleanAfter_delFQAfter_other q p hp l h hcl

theorem applyPass_of_clean (pr : Side × (Node → Bool)) (l : List Node)
    (hcl : cleanPass pr l = true) : applyPass pr.1 pr.2 l = l := by
  rcases pr with ⟨s, p⟩
  cases s
  · exact delFQBefore_of_clean p l hcl
  · exact delFQAfter_of_clean p l hcl

theorem applyPasses_noStacked (ps : List (Side × (Node → Bool)))
    (hp : ∀ pr ∈ ps, pr.2 Node.fakequant = false) :
    ∀ l : List Node, noStackedFQ l = true →
      noStackedFQ (applyPasses ps l) = true := by
  induction ps with
  | nil => intro l h; exact h
  | cons pr2 ps ih =>
    intro l h
    exact ih (fun x hx => hp x (List.mem_cons_of_mem pr2 hx))
      (applyPass pr2.1 pr2.2 l)
      (applyPass_noStacked pr2 (hp pr2 (List.mem_cons_self pr2 ps)) l h)

theorem cleanPass_applyPasses (pr : Side × (Node → Bool))
    (ps : List (Side × (Node → Bool)))
    (hp : ∀ x ∈ ps, x.2 Node.fakequant = false) :
    ∀ l : List Node, noStackedFQ l = true → cleanPass pr l = true →
      cleanPass pr (applyPasses ps l) = true := by
  induction ps with
  | nil => intro l _ hcl; exact hcl
  | cons pr2 ps ih =>
    intro l h hcl
    exact ih (fun x hx => hp x (List.mem_cons_of_mem pr2 hx))
      (applyPass pr2.1 pr2.2 l)
      (applyPass_noStacked pr2 (hp pr2 (List.mem_cons_self pr2 ps)) l h)
      (applyPass_preserves pr pr2 (hp pr2 (List.mem_cons_self pr2 ps)) l h hcl)

theorem applyPasses_clean (ps : List (Side × (Node → Bool)))
    (hp : ∀ pr ∈ ps, pr.2 Node.fakequant = false) :
    ∀ l : List Node, noStackedFQ l = true →
      ∀ pr ∈ ps, cleanPass pr (applyPasses ps l) = true := by
  induction ps with
  | nil => intro l _ pr hpr; exact absurd hpr (List.not_mem_nil pr)
  | cons pr2 ps ih =>
    intro l h pr hpr
    have hp2 := hp pr2 (List.mem_cons_self pr2 ps)
    have hps : ∀ x ∈ ps, x.2 Node.fakequant = false :=
      fun x hx => hp x (List.mem_cons_of_mem pr2 hx)
    have h2 : noStackedFQ (applyPass pr2.1 pr2.2 l) = true :=
      applyPass_noStacked pr2 hp2 l h
    rcases List.mem_cons.mp hpr with hpr | hpr
    · subst hpr
      exact cleanPass_applyPasses pr ps hps (applyPass pr.1 pr.2 l) h2
        (applyPass_establishes pr hp2 l h)
    · exact ih hps (applyPass pr2.1 pr2.2 l) h2 pr hpr

theorem applyPasses_of_clean (ps : List (Side × (Node → Bool))) :
    ∀ l : List Node, (∀ pr ∈ ps, cleanPass pr l = true) →
      applyPasses ps l = l := by
  induction ps with
  | nil => intro l _; rfl
  | cons pr2 ps ih =>
    intro l hcl
    have h2 : applyPass pr2.1 pr2.2 l = l :=
      applyPass_of_clean pr2 l (hcl pr2 (List.mem_cons_self pr2 ps))
    show applyPasses ps (applyPass pr2.1 pr2.2 l) = l
    rw [h2]
    exact ih l (fun x hx => hcl x (List.mem_cons_of_mem pr2 hx))

theorem applyPasses_idem (ps : List (Side × (Node → Bool)))
    (hp : ∀ pr ∈ ps, pr.2 Node.fakequant = false) (l : List Node)
    (h : noStackedFQ l = true) :
    applyPasses ps (applyPasses ps l) = applyPasses ps l :=
  applyPasses_of_clean ps (applyPasses ps l) (applyPasses_clean ps hp l h)

theorem del_redundant_eq_passList (q : NativeQuantizer) (l : List Node) :
    q.del_redundant_fakequant l = applyPasses q.passList l := rfl

theorem passList_fq_false (q : NativeQuantizer) :
    ∀ pr ∈ q.passList, pr.2 Node.fakequant = false := by
  intro pr hpr
  simp only [NativeQuantizer.passList, List.mem_cons, List.not_mem_nil,
    or_false] at hpr
  rcases hpr with rfl | rfl | rfl | rfl | rfl | rfl | rfl | rfl <;> rfl

/-- C6: del_redundant_fakequant is idempotent on every prepared graph, that
is, on every graph satisfying the at-most-one-fake-quant-per-edge invariant
that prepare guarantees: applying the pruner twice yields a graph identical
to applying it once, for every quantizer configuration (hence for every
choice of extra exempt lists). -/
theorem del_redundant_fakequant_idempotent (q : NativeQuantizer)
    (l : List Node) (h : noStackedFQ l = true) :
    q.del_redundant_fakequant (q.del_redundant_fakequant l) =
      q.del_redundant_fakequant l := by
  simp only [del_redundant_eq_passList]
  exact applyPasses_idem q.passList (passList_fq_false q) l h

/-- Witness: the idempotence theorem applied at a concrete quantizer whose
extra module-before list deletes a fake-quant node of the concrete graph. -/
theorem del_redundant_fakequant_idempotent_witness :
    noStackedFQ gWit = true ∧
      nqModPrev.del_redundant_fakequant
          (nqModPrev.del_redundant_fakequant gWit) =
        nqModPrev.del_redundant_fakequant gWit :=
  ⟨by decide, del_redundant_fakequant_idempotent nqModPrev gWit (by decide)⟩

/-- C1: evaluation at the failing input.  With one caller-supplied entry in
the extra function-before exempt list and a graph consisting of a fake-quant
node followed by a call of that very function, del_redundant_fakequant
returns the graph unchanged: the source hands the function-category lists to
the method-call deleters and the method-category lists to the function-call
deleters, so the function-before deletion the claim describes never happens.
The second conjunct shows the deletion that the claimed wiring, namely the
function-call deleter applied to function_prev_wo_fakequant plus the extra
function list, would have performed on the same graph. -/
theorem del_redundant_fakequant_function_entry_not_deleted :
    nqFuncPrev.del_redundant_fakequant [Node.fakequant, Node.functionCall 0] =
      [Node.fakequant, Node.functionCall 0] ∧
    del_fakequant_before_function [Node.fakequant, Node.functionCall 0]
      (nqFuncPrev.function_prev_wo_fakequant ++
        nqFuncPrev.extra_redundant_fakequants.extra_function_prev_wo_fakequant) =
      [Node.functionCall 0] :=
  ⟨by decide, by decide⟩

/-- C7: prepare_for_mmdeploy fails with the not-implemented error on every
instance and for all arguments; it produces nothing besides the error, in
particular no partially processed model. -/
theorem prepare_for_mmdeploy_not_implemented (q : NativeQuantizer)
    (model : Nat) (dummy_input : List Int) (checkpoint : Option String) :
    q.prepare_for_mmdeploy model dummy_input checkpoint =
      .error .notImplementedError := rfl

/-- C10: the query properties are fixed on every instance: backend is
native, support_w_modes is per_tensor and per_channel, support_a_modes is
per_tensor only, and all eight redundant-fakequant base lists are empty. -/
theorem fixed_query_properties (q : NativeQuantizer) :
    q.backend = "native" ∧
    q.support_w_modes = ["per_tensor", "per_channel"] ∧
    q.support_a_modes = ["per_tensor"] ∧
    q.module_prev_wo_fakequant = [] ∧
    q.module_next_wo_fakequant = [] ∧
    q.function_prev_wo_fakequant = [] ∧
    q.function_next_wo_fakequant = [] ∧
    q.method_prev_wo_fakequant = [] ∧
    q.method_next_wo_fakequant = [] ∧
    q.op_prev_wo_fakequant = [] ∧
    q.op_next_wo_fakequant = [] :=
  ⟨rfl, rfl, rfl, rfl, rfl, rfl, rfl, rfl, rfl, rfl, rfl⟩

/-- C4: prepare performs, in order, fusion with the training-mode flag true,
observer insertion driven by the qconfig mapping and the tracer scope
metadata (again with the training-mode flag true), and finally the
redundant-fakequant pruner, whose output it returns. -/
theorem prepare_pipeline_order (q : NativeQuantizer)
    (fuseFx : List Node → Bool → Nat → List Node)
    (prepareFx : List Node → QConfigMapping → Bool → Nat → Nat → Nat → List Node)
    (model : Nat) (g : List Node) :
    q.prepare fuseFx prepareFx model g =
      q.del_redundant_fakequant
        (prepareFx (fuseFx g true q.backend_config) q.qconfig_mapping true
          q.tracer q.example_inputs q.backend_config) := rfl

/-- C3: for a child whose type is in SUPPORT_QAT_MODULES, the weight
fake-quant is invoked on the stored weight exactly once before folding (and
the folding input is the fake-quantized weight, which overwrote the stored
weight), and exactly once more, on the reconstructed module weight, when
keep_fake_quant is true: two invocations in total on that path, one
otherwise.  The second conjunct states the same per-child invocation record
at an arbitrary child position of the traversal. -/
theorem post_process_weight_fakequant_invocations (q : NativeQuantizer)
    (fq : Int → Int) (fold : QatType → Int → Int) (keep : Bool)
    (name : String) (t : QatType) (w : Int) (rest : Children) :
    (q.post_process_weight_fakequant fq fold
        (.container (.cons name (.qat t w) .nil)) keep).2 =
      (if keep = true then [w, fold t (fq w)] else [w]) ∧
    (traverseChildren fq fold keep (.cons name (.qat t w) rest)).2 =
      (if keep = true then [w, fold t (fq w)] else [w]) ++
        (traverseChildren fq fold keep rest).2 := by
  cases keep <;> exact ⟨rfl, rfl⟩

/-- C9: on the keep_fake_quant path the result of the second weight
fake-quant invocation is discarded: the reconstructed module stores exactly
the weight produced by from_float, namely the batchnorm-folded image of the
fake-quantized original weight, for every fake-quant function, even though
the invocation record shows that the fake-quant was called on that weight. -/
theorem second_weight_fakequant_discarded (fq : Int → Int)
    (fold : QatType → Int → Int) (t : QatType) (w : Int) :
    (processQatChild fq fold true t w).1 =
      ModuleT.qat ((MERGE_BN_MAPPINGS t).getD t) (fold t (fq w)) ∧
    (processQatChild fq fold true t w).2 = [w, fold t (fq w)] := by
  constructor
  · cases hm : MERGE_BN_MAPPINGS t <;>
      simp [processQatChild, hm, Option.getD]
  · rfl

/-- C5: with keep_fake_quant true, a fused child whose type has an entry in
MERGE_BN_MAPPINGS is replaced by a module of exactly the merge-mapped type,
which is a type without a batchnorm submodule. -/
theorem post_process_keep_fake_quant_merge_type (q : NativeQuantizer)
    (fq : Int → Int) (fold : QatType → Int → Int) (name : String)
    (t c : QatType) (w : Int) (h : MERGE_BN_MAPPINGS t = some c) :
    (q.post_process_weight_fakequant fq fold
        (.container (.cons name (.qat t w) .nil)) true).1 =
      .container (.cons name (.qat c (fold t (fq w))) .nil) ∧
    has_bn c = false := by
  cases t <;> simp only [MERGE_BN_MAPPINGS, Option.some.injEq] at h <;>
    first
    | exact Option.noConfusion h
    | (subst h; exact ⟨rfl, rfl⟩)

/-- Witness: the merge-type theorem applied at a conv-batchnorm-relu child
with weight 5, fake-quant adding one and folding doubling: the replacement
is a conv-relu module with weight 12 and no batchnorm. -/
theorem post_process_keep_fake_quant_merge_type_witness :
    MERGE_BN_MAPPINGS .ConvBnReLU2d = some .ConvReLU2d ∧
    ((nqModPrev.post_process_weight_fakequant fqDemo foldDemo
        (.container (.cons "conv" (.qat .ConvBnReLU2d 5) .nil)) true).1 =
      .container (.cons "conv" (.qat .ConvReLU2d 12) .nil) ∧
      has_bn .ConvReLU2d = false) :=
  ⟨rfl, post_process_keep_fake_quant_merge_type nqModPrev fqDemo foldDemo
    "conv" .ConvBnReLU2d .ConvReLU2d 5 rfl⟩

theorem lookup_none_entries :
    ∀ (l : List (Nat × Option Nat)) (t : Nat) (v : Option Nat),
      (∀ e ∈ l, e.2 = none) → l.lookup t = some v → v = none := by
  intro l
  induction l with
  | nil => intro t v _ h; exact Option.noConfusion h
  | cons e rest ih =>
    intro t v hall h
    rcases e with ⟨k, val⟩
    by_cases hk : t = k
    · subst hk
      simp only [List.lookup, beq_self_eq_true] at h
      injection h with h2
      rw [← h2]
      exact hall (t, val) (List.mem_cons_self _ _)
    · have hbeq : (t == k) = false := by simp [hk]
      simp only [List.lookup, hbeq] at h
      exact ih t v (fun e he => hall e (List.mem_cons_of_mem _ he)) h

theorem lookup_some_of_key :
    ∀ (l : List (Nat × Option Nat)) (t : Nat),
      (∃ e ∈ l, e.1 = t) → l.lookup t ≠ none := by
  intro l
  induction l with
  | nil =>
    intro t h
    obtain ⟨e, he, _⟩ := h
    exact absurd he (List.not_mem_nil e)
  | cons e rest ih =>
    intro t hex
    rcases e with ⟨k, val⟩
    by_cases hk : t = k
    · subst hk
      simp [List.lookup]
    · have hbeq : (t == k) = false := by simp [hk]
      simp only [List.lookup, hbeq]
      obtain ⟨e, he, het⟩ := hex
      rcases List.mem_cons.mp he with heq | he2
      · exfalso
        rw [heq] at het
        exact hk het.symm
      · exact ih t ⟨e, he2, het⟩

theorem qconfigFor_all_none (g : Option Nat) (l : List (Nat × Option Nat))
    (t : Nat) (hall : ∀ e ∈ l, e.2 = none) (hmem : ∃ e ∈ l, e.1 = t) :
    QConfigMapping.qconfigFor ⟨g, l⟩ t = none := by
  rcases hl : l.reverse.lookup t with _ | v
  · exfalso
    apply lookup_some_of_key l.reverse t ?_ hl
    obtain ⟨e, he, het⟩ := hmem
    exact ⟨e, List.mem_reverse.mpr he, het⟩
  · have hv : v = none :=
      lookup_none_entries l.reverse t v
        (fun e he => hall e (List.mem_reverse.mp he)) hl
    simp only [QConfigMapping.qconfigFor, hl, hv]

theorem foldl_set_object_type (mods : List Nat) :
    ∀ m : QConfigMapping,
      mods.foldl (fun acc t => acc.set_object_type t none) m =
        ⟨m.global_qconfig,
         m.object_type_qconfigs ++ mods.map (fun t => (t, none))⟩ := by
  induction mods with
  | nil => intro m; cases m; simp
  | cons t rest ih =>
    intro m
    rw [List.foldl_cons, ih]
    rcases m with ⟨g, l⟩
    simp [QConfigMapping.set_object_type]

/-- C2: construction succeeds exactly when the activation scheme is
per-tensor, whatever the weight scheme; a per-channel activation scheme
makes construction fail with the assertion error, raised before the qconfig
mapping is built, so the error carries no partially constructed state. -/
theorem init_mode_check (cfg : QConfigHander) (no_obs : Option (List Nat))
    (tracer : Nat) (extras : ExtraRedundantFakequants) :
    isOkE (NativeQuantizer.init cfg no_obs tracer extras) =
      !cfg.a_qscheme.is_per_channel ∧
    (cfg.a_qscheme.is_per_channel = true →
      NativeQuantizer.init cfg no_obs tracer extras =
        .error .assertionError) := by
  have m1 : "per_tensor" ∈ support_w_modes_val := by decide
  have m2 : "per_channel" ∈ support_w_modes_val := by decide
  have m3 : "per_tensor" ∈ support_a_modes_val := by decide
  have m4 : "per_channel" ∉ support_a_modes_val := by decide
  constructor
  · cases hw : cfg.w_qscheme.is_per_channel <;>
      cases ha : cfg.a_qscheme.is_per_channel <;>
      simp [NativeQuantizer.init, hw, ha, m1, m2, m3, m4, isOkE]
  · intro ha
    cases hw : cfg.w_qscheme.is_per_channel <;>
      simp [NativeQuantizer.init, hw, ha, m1, m2, m4]

/-- Witness: constructing from the concrete per-channel-activation qconfig
fails with the assertion error. -/
theorem init_mode_check_witness :
    cfgPerChannelAct.a_qscheme.is_per_channel = true ∧
    NativeQuantizer.init cfgPerChannelAct none 0
        ExtraRedundantFakequants.empty = .error .assertionError :=
  ⟨rfl, (init_mode_check cfgPerChannelAct none 0
    ExtraRedundantFakequants.empty).2 rfl⟩

/-- C8: when construction is given no_observer_modules, the resulting
qconfig mapping is exactly the global default plus one none registration per
listed module type (no other mutation); consequently the qconfig governing
each listed type is none, and the spec-modelled observer insertion attaches
no observer to any occurrence of such a module call in any graph. -/
theorem init_no_observer_registration (cfg : QConfigHander) (mods : List Nat)
    (tracer : Nat) (extras : ExtraRedundantFakequants) (st : NativeQuantizer)
    (h : NativeQuantizer.init cfg (some mods) tracer extras = .ok st) :
    st.qconfig_mapping =
      ⟨some cfg.convert, mods.map (fun t => (t, none))⟩ ∧
    (∀ t ∈ mods, st.qconfig_mapping.qconfigFor t = none) ∧
    (∀ t ∈ mods, ∀ g : List Node,
      insert_observers st.qconfig_mapping (Node.moduleCall t :: g) =
        Node.moduleCall t :: insert_observers st.qconfig_mapping g) := by
  have m1 : "per_tensor" ∈ support_w_modes_val := by decide
  have m2 : "per_channel" ∈ support_w_modes_val := by decide
  have m3 : "per_tensor" ∈ support_a_modes_val := by decide
  have m4 : "per_channel" ∉ support_a_modes_val := by decide
  have hinit : NativeQuantizer.init cfg (some mods) tracer extras =
      if cfg.a_qscheme.is_per_channel then .error .assertionError
      else .ok
        ⟨cfg, ⟨some cfg.convert, mods.map (fun t => (t, none))⟩, some mods,
         BackendConfigsReg backend_val, exampleInputsTok, extras, tracer⟩ := by
    cases ha : cfg.a_qscheme.is_per_channel
    · rcases mods with _ | ⟨m0, ms⟩
      · cases hw : cfg.w_qscheme.is_per_channel <;>
          simp [NativeQuantizer.init, hw, ha, m1, m2, m3, str2class,
            QConfigMapping.set_global, QConfigMapping.empty]
      · have hbody : NativeQuantizer.init cfg (some (m0 :: ms)) tracer extras =
            .ok ⟨cfg,
              (m0 :: ms).foldl (fun m t => m.set_object_type t none)
                (QConfigMapping.empty.set_global cfg.convert),
              some (m0 :: ms), BackendConfigsReg backend_val,
              exampleInputsTok, extras, tracer⟩ := by
          cases hw : cfg.w_qscheme.is_per_channel <;>
            simp [NativeQuantizer.init, hw, ha, m1, m2, m3, str2class]
        rw [hbody, foldl_set_object_type]
        rfl
    · cases hw : cfg.w_qscheme.is_per_channel <;>
        simp [NativeQuantizer.init, hw, ha, m1, m2, m4]
  rw [hinit] at h
  cases ha : cfg.a_qscheme.is_per_channel
  · rw [ha] at h
    simp only [Bool.false_eq_true, if_false] at h
    injection h with h
    have hq : ∀ t ∈ mods,
        QConfigMapping.qconfigFor
          ⟨some cfg.convert, mods.map (fun t => (t, none))⟩ t = none := by
      intro t ht
      apply qconfigFor_all_none
      · intro e he
        obtain ⟨x, _, hxe⟩ := List.mem_map.mp he
        rw [← hxe]
      · exact ⟨(t, none), List.mem_map_of_mem _ ht, rfl⟩
    subst h
    refine ⟨rfl, hq, ?_⟩
    intro t ht g
    have h2 := hq t ht
    simp only [insert_observers, observeNode, h2]
    rfl
  · rw [ha] at h
    simp only [if_true] at h
    exact Except.noConfusion h

/-- Witness: constructing from the concrete supported qconfig with
no-observer module type 7 yields exactly the expected state; type 7 is
governed by a none qconfig, and observer insertion leaves a module-call of
type 7 unobserved while the rest of the graph is processed unchanged. -/
theorem init_no_observer_registration_witness :
    NativeQuantizer.init cfgSupported (some [7]) 4
        ExtraRedundantFakequants.empty = .ok stWit ∧
    stWit.qconfig_mapping.qconfigFor 7 = none ∧
    insert_observers stWit.qconfig_mapping
        [Node.moduleCall 7, Node.moduleCall 9] =
      Node.moduleCall 7 ::
        insert_observers stWit.qconfig_mapping [Node.moduleCall 9] :=
  ⟨rfl,
   (init_no_observer_registration cfgSupported [7] 4
      ExtraRedundantFakequants.empty stWit rfl).2.1 7 (by decide),
   (init_no_observer_registration cfgSupported [7] 4
      ExtraRedundantFakequants.empty stWit rfl).2.2 7 (by decide)
     [Node.moduleCall 9]⟩
